import Mathlib

/-!
Verification development for the MobileNetV2 construction code in
`src/MobileNet/model_v2.py`.  The Python module is shallowly embedded:
channel counts are integers (`ℤ`), width multipliers are rationals (`ℚ`),
layers are constructor descriptions, and the network builder is a pure
function assembling lists of layers exactly as the Python constructor does.
Tensor primitives (convolution arithmetic, normalization statistics) are
external to the repository and stay abstract; what is verified is the
construction algorithm: channel rounding, block topology, and assembly.
-/

/-- Python `int()` applied to a real number: truncation toward zero. -/
def pyInt (x : ℚ) : ℤ := if 0 ≤ x then ⌊x⌋ else ⌈x⌉

/-- Embedding of `_make_divisible(ch, divisor=8, min_ch=None)`
(src/MobileNet/model_v2.py, lines 5–23).  Python's `//` on integers is
floor division, hence `Int.fdiv`; `divisor / 2` is true (float) division. -/
def make_divisible (ch : ℚ) (divisor : ℤ := 8) (min_ch : Option ℤ := none) : ℤ :=
  let min_ch := min_ch.getD divisor
  let new_ch := max min_ch ((pyInt (ch + (divisor : ℚ) / 2)).fdiv divisor * divisor)
  if (new_ch : ℚ) < 9/10 * ch then new_ch + divisor else new_ch

/-- Modelled from the spec (§4.1): the reference channel-rounding algorithm
`round_channels`, written exactly as the spec words it — candidate is
`max(min_channels, floor((raw + divisor/2) / divisor) * divisor)`, and one
`divisor` increment is added when the candidate undershoots `0.9 * raw`.
Used only to compare against the source embedding `make_divisible`. -/
def round_channels (raw : ℚ) (divisor : ℤ) (min_channels : Option ℤ) : ℤ :=
  let mc := min_channels.getD divisor
  let candidate := max mc (⌊(raw + (divisor : ℚ) / 2) / (divisor : ℚ)⌋ * divisor)
  if (candidate : ℚ) < 9/10 * raw then candidate + divisor else candidate

/-- Leaf layers of the network, as constructed by the Python module.  Each
constructor records exactly the arguments the source passes to the
corresponding `torch.nn` primitive. -/
inductive Layer where
  | conv2d (in_channel out_channel kernel_size stride padding groups : ℤ) (bias : Bool)
  | batchNorm2d (num_features : ℤ)
  | relu6
  | adaptiveAvgPool2d
  | dropout (p : ℚ)
  | linear (in_features out_features : ℤ) (bias : Bool)
  deriving DecidableEq

/-- Embedding of `ConvBNReLU` (lines 26–37): convolution (bias disabled,
padding `(kernel_size - 1) // 2`), batch normalization, ReLU6. -/
def ConvBNReLU (in_channel out_channel : ℤ) (kernel_size : ℤ := 3)
    (stride : ℤ := 1) (groups : ℤ := 1) : List Layer :=
  let padding := (kernel_size - 1).fdiv 2
  [Layer.conv2d in_channel out_channel kernel_size stride padding groups false,
   Layer.batchNorm2d out_channel,
   Layer.relu6]

/-- State of an `InvertedResidual` block after `__init__` ran: the shortcut
flag and the layer pipeline stored in `self.conv`. -/
structure InvertedResidual where
  use_shortcut : Bool
  conv : List Layer
  deriving DecidableEq

/-- Embedding of `InvertedResidual.__init__` (lines 44–63): the shortcut flag
is fixed here, at construction time, from `stride == 1 and in_channel ==
out_channel`; the pipeline is the optional 1×1 expansion `ConvBNReLU`, the
depthwise `ConvBNReLU` (groups = hidden channels), then the 1×1 projection
convolution without bias followed by batch normalization only. -/
def InvertedResidual.build (in_channel out_channel stride expand_ratio : ℤ) :
    InvertedResidual :=
  let hidden_channel := in_channel * expand_ratio
  { use_shortcut := stride == 1 && in_channel == out_channel,
    conv :=
      (if expand_ratio != 1 then ConvBNReLU in_channel hidden_channel 1 1 1 else []) ++
      ConvBNReLU hidden_channel hidden_channel 3 stride hidden_channel ++
      [Layer.conv2d hidden_channel out_channel 1 1 0 1 false,
       Layer.batchNorm2d out_channel] }

/-- Sequential evaluation of a layer list, given an interpretation of the
external tensor primitives. -/
def evalLayers {T : Type} (evalLayer : Layer → T → T) (layers : List Layer) (x : T) : T :=
  layers.foldl (fun t l => evalLayer l t) x

/-- Embedding of `InvertedResidual.forward` (lines 65–69): the stored flag
selects between `x + self.conv(x)` and `self.conv(x)`. -/
def InvertedResidual.forward {T : Type} [Add T] (evalLayer : Layer → T → T)
    (b : InvertedResidual) (x : T) : T :=
  if b.use_shortcut then x + evalLayers evalLayer b.conv x
  else evalLayers evalLayer b.conv x

/-- Elements of the `features` list built by `MobileNetV2.__init__`: either a
`ConvBNReLU` unit (with its constructor arguments) or an inverted-residual
block (with its constructor arguments). -/
inductive Feature where
  | convbnrelu (in_channel out_channel kernel_size stride groups : ℤ)
  | block (in_channel out_channel stride expand_ratio : ℤ)
  deriving DecidableEq

/-- Leaf layers of a feature element. -/
def Feature.layers : Feature → List Layer
  | Feature.convbnrelu i o k s g => ConvBNReLU i o k s g
  | Feature.block i o s t => (InvertedResidual.build i o s t).conv

/-- The fixed stage table `inverted_residual_setting` (lines 79–88), entries
`(t, c, n, s)`: expansion factor, output channels, repeats, first stride. -/
def inverted_residual_setting : List (ℤ × ℚ × ℕ × ℤ) :=
  [(1, 16, 1, 1), (6, 24, 2, 2), (6, 32, 3, 2), (6, 64, 4, 2),
   (6, 96, 3, 1), (6, 160, 3, 2), (6, 320, 1, 1)]

/-- State of a `MobileNetV2` after `__init__` ran: the ordered feature
sequence, the pooling stage, and the classifier head. -/
structure MobileNetV2 where
  features : List Feature
  avgpool : Layer
  classifier : List Layer

/-- Embedding of `MobileNetV2.__init__` (lines 73–110): stem `ConvBNReLU`,
then for each stage `(t, c, n, s)` of the table, `n` blocks — stride `s` for
block 0, stride 1 afterwards — threading the running input channel count,
then the head `ConvBNReLU` (kernel 1), adaptive average pooling, and the
classifier `Dropout(0.2)` + `Linear(last_channel, num_classes)`. -/
def MobileNetV2.build (num_classes : ℤ := 1000) (alpha : ℚ := 1)
    (round_nearest : ℤ := 8) : MobileNetV2 :=
  let input_channel := make_divisible (32 * alpha) round_nearest none
  let last_channel := make_divisible (1280 * alpha) round_nearest none
  let start : List Feature × ℤ := ([Feature.convbnrelu 3 input_channel 3 2 1], input_channel)
  let built := inverted_residual_setting.foldl (fun acc tcns =>
    let t := tcns.1
    let c := tcns.2.1
    let n := tcns.2.2.1
    let s := tcns.2.2.2
    let output_channel := make_divisible (c * alpha) round_nearest none
    (List.range n).foldl (fun acc2 i =>
      let stride := if i == 0 then s else 1
      (acc2.1 ++ [Feature.block acc2.2 output_channel stride t], output_channel)) acc) start
  { features := built.1 ++ [Feature.convbnrelu built.2 last_channel 1 1 1],
    avgpool := Layer.adaptiveAvgPool2d,
    classifier := [Layer.dropout (1/5), Layer.linear last_channel num_classes true] }

/-- Flat list of leaf modules of the network, in construction order, as
`self.modules()` enumerates them for the initialization loop. -/
def MobileNetV2.modules (net : MobileNetV2) : List Layer :=
  (net.features.map Feature.layers).flatten ++ [net.avgpool] ++ net.classifier

/-- Constructor parameters `(in_channel, out_channel, stride, expand_ratio)`
of the inverted-residual blocks of a feature sequence, in order. -/
def blockParams (fs : List Feature) : List (ℤ × ℤ × ℤ × ℤ) :=
  fs.filterMap fun f => match f with
    | Feature.block i o s t => some (i, o, s, t)
    | _ => none

/-- Channel chaining: each listed block consumes exactly the channel count
produced before it, starting from `prev`. -/
def chainedFrom : ℤ → List (ℤ × ℤ × ℤ × ℤ) → Prop
  | _, [] => True
  | prev, (i, o, _, _) :: rest => i = prev ∧ chainedFrom o rest

/-- Names of the learnable parameter tensors touched by the initialization
loop (lines 113–123): `m.weight` and `m.bias`. -/
inductive ParamName where
  | weight
  | bias
  deriving DecidableEq

/-- Initializers applied by the loop: `kaiming_normal_(mode=fan_out)`,
`zeros_`, `ones_`, `normal_(0, 0.01)`. -/
inductive ParamInit where
  | kaiming_normal_fan_out
  | zeros
  | ones
  | normal_std_centi
  deriving DecidableEq

/-- Value written by a deterministic (constant-fill) initializer; random
initializers yield no fixed value. -/
def ParamInit.constValue : ParamInit → Option ℚ
  | ParamInit.zeros => some 0
  | ParamInit.ones => some 1
  | _ => none

/-- Embedding of one iteration of the initialization loop (lines 113–123):
the parameter assignments performed on a module, dispatched on its type.
Convolutions get fan-out Kaiming weights and, only if a bias is present,
a zeroed bias; batch normalization gets weight 1 and bias 0; linear maps
get `normal_(0, 0.01)` weights and a zeroed bias; other modules have no
parameters and are untouched. -/
def initAssignments : Layer → List (ParamName × ParamInit)
  | Layer.conv2d _ _ _ _ _ _ bias =>
      (ParamName.weight, ParamInit.kaiming_normal_fan_out) ::
        (if bias then [(ParamName.bias, ParamInit.zeros)] else [])
  | Layer.batchNorm2d _ =>
      [(ParamName.weight, ParamInit.ones), (ParamName.bias, ParamInit.zeros)]
  | Layer.linear _ _ _ =>
      [(ParamName.weight, ParamInit.normal_std_centi), (ParamName.bias, ParamInit.zeros)]
  | _ => []

/-- The whole initialization pass: one visit per module of the list, in
order, each producing its assignments. -/
def initPass (ms : List Layer) : List (Layer × List (ParamName × ParamInit)) :=
  ms.map fun m => (m, initAssignments m)

/-- Checks the post-initialization state of one module: a convolution bias,
where present, is set exactly to 0; a normalization scale exactly to 1 and
its shift exactly to 0; a linear bias exactly to 0. -/
def initOK (m : Layer) : Bool :=
  match m with
  | Layer.conv2d _ _ _ _ _ _ true =>
      ((initAssignments m).lookup ParamName.bias).bind ParamInit.constValue == some 0
  | Layer.batchNorm2d _ =>
      (((initAssignments m).lookup ParamName.weight).bind ParamInit.constValue == some 1)
        && (((initAssignments m).lookup ParamName.bias).bind ParamInit.constValue == some 0)
  | Layer.linear _ _ _ =>
      ((initAssignments m).lookup ParamName.bias).bind ParamInit.constValue == some 0
  | _ => true

/-- Does the module carry a learnable bias parameter?  Convolutions and
linear maps according to their `bias` flag; batch normalization always (its
shift is the `m.bias` the initialization loop writes at line 120). -/
def Layer.hasBiasParam : Layer → Bool
  | Layer.conv2d _ _ _ _ _ _ b => b
  | Layer.batchNorm2d _ => true
  | Layer.linear _ _ b => b
  | _ => false

/-- Is the module a convolution? -/
def Layer.isConv : Layer → Bool
  | Layer.conv2d _ _ _ _ _ _ _ => true
  | _ => false

/-- Is the module a batch-normalization layer? -/
def Layer.isBatchNorm : Layer → Bool
  | Layer.batchNorm2d _ => true
  | _ => false

/-- Is the module a linear map? -/
def Layer.isLinear : Layer → Bool
  | Layer.linear _ _ _ => true
  | _ => false

/-- A convolution created with its bias disabled (or a non-convolution). -/
def convBiasDisabled : Layer → Bool
  | Layer.conv2d _ _ _ _ _ _ b => !b
  | _ => true

/-- The initialization branch zeroing a convolution bias (line 117) writes
nothing on this module: either it is not a convolution, or its assignment
list carries no bias entry. -/
def convBiasBranchUnused (m : Layer) : Bool :=
  match m with
  | Layer.conv2d _ _ _ _ _ _ _ => (initAssignments m).lookup ParamName.bias == none
  | _ => true

/-- Any bias parameter belongs to a linear map or to a normalization layer. -/
def biasOnlyInLinearOrNorm (m : Layer) : Bool :=
  !m.hasBiasParam || m.isLinear || m.isBatchNorm

theorem range_one : List.range 1 = [0] := rfl

theorem range_two : List.range 2 = [0, 1] := rfl

theorem range_three : List.range 3 = [0, 1, 2] := rfl

theorem range_four : List.range 4 = [0, 1, 2, 3] := rfl

/-- Unrolling of the feature-assembly loop of `MobileNetV2.__init__`: for
every configuration, the feature sequence is the stem, the seventeen
inverted-residual blocks generated from the stage table, and the head. -/
theorem build_features (nc : ℤ) (alpha : ℚ) (rn : ℤ) :
    (MobileNetV2.build nc alpha rn).features =
    [Feature.convbnrelu 3 (make_divisible (32 * alpha) rn none) 3 2 1,
     Feature.block (make_divisible (32 * alpha) rn none) (make_divisible (16 * alpha) rn none) 1 1,
     Feature.block (make_divisible (16 * alpha) rn none) (make_divisible (24 * alpha) rn none) 2 6,
     Feature.block (make_divisible (24 * alpha) rn none) (make_divisible (24 * alpha) rn none) 1 6,
     Feature.block (make_divisible (24 * alpha) rn none) (make_divisible (32 * alpha) rn none) 2 6,
     Feature.block (make_divisible (32 * alpha) rn none) (make_divisible (32 * alpha) rn none) 1 6,
     Feature.block (make_divisible (32 * alpha) rn none) (make_divisible (32 * alpha) rn none) 1 6,
     Feature.block (make_divisible (32 * alpha) rn none) (make_divisible (64 * alpha) rn none) 2 6,
     Feature.block (make_divisible (64 * alpha) rn none) (make_divisible (64 * alpha) rn none) 1 6,
     Feature.block (make_divisible (64 * alpha) rn none) (make_divisible (64 * alpha) rn none) 1 6,
     Feature.block (make_divisible (64 * alpha) rn none) (make_divisible (64 * alpha) rn none) 1 6,
     Feature.block (make_divisible (64 * alpha) rn none) (make_divisible (96 * alpha) rn none) 1 6,
     Feature.block (make_divisible (96 * alpha) rn none) (make_divisible (96 * alpha) rn none) 1 6,
     Feature.block (make_divisible (96 * alpha) rn none) (make_divisible (96 * alpha) rn none) 1 6,
     Feature.block (make_divisible (96 * alpha) rn none) (make_divisible (160 * alpha) rn none) 2 6,
     Feature.block (make_divisible (160 * alpha) rn none) (make_divisible (160 * alpha) rn none) 1 6,
     Feature.block (make_divisible (160 * alpha) rn none) (make_divisible (160 * alpha) rn none) 1 6,
     Feature.block (make_divisible (160 * alpha) rn none) (make_divisible (320 * alpha) rn none) 1 6,
     Feature.convbnrelu (make_divisible (320 * alpha) rn none) (make_divisible (1280 * alpha) rn none) 1 1 1] := by
  simp [MobileNetV2.build, inverted_residual_setting, range_one, range_two, range_three,
    range_four]

/-- The classifier head is always `Dropout(0.2)` followed by a biased linear
map from the rounded head channels to `num_classes`. -/
theorem build_classifier (nc : ℤ) (alpha : ℚ) (rn : ℤ) :
    (MobileNetV2.build nc alpha rn).classifier =
    [Layer.dropout (1/5), Layer.linear (make_divisible (1280 * alpha) rn none) nc true] := rfl

theorem build_avgpool (nc : ℤ) (alpha : ℚ) (rn : ℤ) :
    (MobileNetV2.build nc alpha rn).avgpool = Layer.adaptiveAvgPool2d := rfl

theorem md32 : make_divisible 32 8 none = 32 := by
  norm_num [make_divisible, pyInt, Int.fdiv_eq_ediv]

theorem md16 : make_divisible 16 8 none = 16 := by
  norm_num [make_divisible, pyInt, Int.fdiv_eq_ediv]

theorem md24 : make_divisible 24 8 none = 24 := by
  norm_num [make_divisible, pyInt, Int.fdiv_eq_ediv]

theorem md64 : make_divisible 64 8 none = 64 := by
  norm_num [make_divisible, pyInt, Int.fdiv_eq_ediv]

theorem md96 : make_divisible 96 8 none = 96 := by
  norm_num [make_divisible, pyInt, Int.fdiv_eq_ediv]

theorem md160 : make_divisible 160 8 none = 160 := by
  norm_num [make_divisible, pyInt, Int.fdiv_eq_ediv]

theorem md320 : make_divisible 320 8 none = 320 := by
  norm_num [make_divisible, pyInt, Int.fdiv_eq_ediv]

theorem md1280 : make_divisible 1280 8 none = 1280 := by
  norm_num [make_divisible, pyInt, Int.fdiv_eq_ediv]

/-- The initialization pass visits exactly the given modules, in order. -/
theorem initPass_fst (ms : List Layer) : (initPass ms).map Prod.fst = ms := by
  induction ms with
  | nil => rfl
  | cons a t ih =>
      simp only [initPass, List.map_cons] at ih ⊢
      exact congrArg (List.cons a) ih

/-- Every module type passes the post-initialization check: the loop writes
constant 0 to any convolution or linear bias and constants 1 and 0 to the
batch-normalization scale and shift. -/
theorem initOK_all (m : Layer) : initOK m = true := by
  cases m with
  | conv2d i o k s p g b => cases b <;> rfl
  | batchNorm2d c => rfl
  | linear i o b => rfl
  | relu6 => rfl
  | adaptiveAvgPool2d => rfl
  | dropout p => rfl

/-- Flooring integer division of a floor: for a positive divisor `d`,
`⌊x⌋.fdiv d = ⌊x / d⌋`. -/
theorem fdiv_floor_eq_floor_div (x : ℚ) (d : ℤ) (hd : 0 < d) :
    (⌊x⌋).fdiv d = ⌊x / (d : ℚ)⌋ := by
  rw [Int.fdiv_eq_ediv _ (le_of_lt hd)]
  have hdq : (0 : ℚ) < (d : ℚ) := by exact_mod_cast hd
  have hdm : d * (⌊x⌋ / d) + ⌊x⌋ % d = ⌊x⌋ := Int.ediv_add_emod ⌊x⌋ d
  have hm0 : 0 ≤ ⌊x⌋ % d := Int.emod_nonneg ⌊x⌋ (ne_of_gt hd)
  have hmd : ⌊x⌋ % d < d := Int.emod_lt_of_pos ⌊x⌋ hd
  symm
  rw [Int.floor_eq_iff]
  constructor
  · rw [le_div_iff₀ hdq]
    have h1 : (d * (⌊x⌋ / d) : ℤ) ≤ ⌊x⌋ := by omega
    calc ((⌊x⌋ / d : ℤ) : ℚ) * d = ((d * (⌊x⌋ / d) : ℤ) : ℚ) := by push_cast; ring
      _ ≤ (⌊x⌋ : ℚ) := by exact_mod_cast h1
      _ ≤ x := Int.floor_le x
  · rw [div_lt_iff₀ hdq]
    have h2 : ⌊x⌋ + 1 ≤ d * (⌊x⌋ / d) + d := by omega
    have h3 : x < (⌊x⌋ : ℚ) + 1 := Int.lt_floor_add_one x
    have h4 : ((⌊x⌋ + 1 : ℤ) : ℚ) ≤ ((d * (⌊x⌋ / d) + d : ℤ) : ℚ) := by exact_mod_cast h2
    push_cast at h4
    nlinarith [h3, h4]

/-- Claim C1: for every real `raw ≥ 0`, `round_channels(raw, 8)` — embedded as
`make_divisible raw 8 none` — is a nonnegative multiple of 8 and is at least
`0.9 * raw`, also on inputs where the 10%-undershoot guard fires; and
`round_channels(32*1.0, 8) = 32`, `round_channels(1280*1.0, 8) = 1280`. -/
theorem round_channels_nonneg_multiple_bound (raw : ℚ) (h : 0 ≤ raw) :
    8 ∣ make_divisible raw 8 none ∧ 0 ≤ make_divisible raw 8 none ∧
    9/10 * raw ≤ ((make_divisible raw 8 none : ℤ) : ℚ) ∧
    make_divisible (32 * 1) 8 none = 32 ∧ make_divisible (1280 * 1) 8 none = 1280 := by
  have hx : (0 : ℚ) ≤ raw + ((8 : ℤ) : ℚ)/2 := by push_cast; linarith
  have hunf : make_divisible raw 8 none =
      if ((max 8 ((⌊raw + ((8 : ℤ) : ℚ)/2⌋).fdiv 8 * 8) : ℤ) : ℚ) < 9/10 * raw
      then max 8 ((⌊raw + ((8 : ℤ) : ℚ)/2⌋).fdiv 8 * 8) + 8
      else max 8 ((⌊raw + ((8 : ℤ) : ℚ)/2⌋).fdiv 8 * 8) := by
    simp only [make_divisible, pyInt, Option.getD]
    rw [if_pos hx]
  set k := ⌊raw + ((8 : ℤ) : ℚ)/2⌋ with hkdef
  set cand := max 8 (k.fdiv 8 * 8) with hcdef
  have hd8 : (8 : ℤ) ∣ 8 := dvd_refl 8
  have hdm8 : (8 : ℤ) ∣ k.fdiv 8 * 8 := dvd_mul_left 8 (k.fdiv 8)
  have hdvd : 8 ∣ cand := by
    rcases max_choice 8 (k.fdiv 8 * 8) with hmx | hmx <;> rw [hcdef, hmx]
    assumption
  have hc8 : (8 : ℤ) ≤ cand := le_max_left _ _
  have hfd : k.fdiv 8 = k / 8 := Int.fdiv_eq_ediv k (by norm_num)
  have hdm : 8 * (k / 8) + k % 8 = k := Int.ediv_add_emod k 8
  have hm0 : 0 ≤ k % 8 := Int.emod_nonneg k (by norm_num)
  have hm8 : k % 8 < 8 := Int.emod_lt_of_pos k (by norm_num)
  have hlow : k - 7 ≤ cand := by
    have hstep : k - 7 ≤ k.fdiv 8 * 8 := by rw [hfd]; omega
    exact le_trans hstep (le_max_right _ _)
  have hkq : raw + 3 < (k : ℚ) := by
    have h5 := Int.sub_one_lt_floor (raw + ((8 : ℤ) : ℚ)/2)
    rw [← hkdef] at h5
    push_cast at h5
    norm_num at h5
    linarith
  have hcandq : raw - 4 < (cand : ℚ) := by
    have hcast : ((k - 7 : ℤ) : ℚ) ≤ (cand : ℚ) := by exact_mod_cast hlow
    push_cast at hcast
    linarith
  by_cases hg : ((cand : ℤ) : ℚ) < 9/10 * raw
  · rw [hunf, if_pos hg]
    refine ⟨dvd_add hdvd (by norm_num), by omega, ?_, by norm_num [make_divisible, pyInt, Int.fdiv_eq_ediv], by norm_num [make_divisible, pyInt, Int.fdiv_eq_ediv]⟩
    push_cast
    linarith
  · rw [hunf, if_neg hg]
    exact ⟨hdvd, by omega, not_lt.mp hg,
      by norm_num [make_divisible, pyInt, Int.fdiv_eq_ediv],
      by norm_num [make_divisible, pyInt, Int.fdiv_eq_ediv]⟩

/-- Witness for C1 at `raw = 11`, an input on which the 10%-undershoot guard
fires (the rounded candidate 8 is below `0.9 * 11`, so 16 is returned). -/
theorem round_channels_nonneg_multiple_bound_witness :
    0 ≤ (11 : ℚ) ∧
    (8 ∣ make_divisible 11 8 none ∧ 0 ≤ make_divisible 11 8 none ∧
     9/10 * 11 ≤ ((make_divisible 11 8 none : ℤ) : ℚ) ∧
     make_divisible (32 * 1) 8 none = 32 ∧ make_divisible (1280 * 1) 8 none = 1280) :=
  ⟨by decide, round_channels_nonneg_multiple_bound 11 (by decide)⟩

/-- Claim C2: the source `_make_divisible` computes exactly the reference
algorithm of the spec — default `min_channels` to `divisor`, candidate
`max(min_channels, floor((raw + divisor/2) / divisor) * divisor)`, plus one
`divisor` increment when the candidate is below `0.9 * raw` — for every
nonnegative `raw` and positive `divisor`. -/
theorem round_channels_matches_reference (raw : ℚ) (h0 : 0 ≤ raw) (divisor : ℤ)
    (hd : 0 < divisor) (min_channels : Option ℤ) :
    make_divisible raw divisor min_channels = round_channels raw divisor min_channels := by
  have hdq : (0 : ℚ) < (divisor : ℚ) := by exact_mod_cast hd
  have hx : (0 : ℚ) ≤ raw + (divisor : ℚ)/2 := by linarith
  simp only [make_divisible, round_channels, pyInt]
  rw [if_pos hx, fdiv_floor_eq_floor_div _ _ hd]

/-- Witness for C2 at `raw = 11`, `divisor = 8`, `min_channels` unset. -/
theorem round_channels_matches_reference_witness :
    0 ≤ (11 : ℚ) ∧ 0 < (8 : ℤ) ∧ make_divisible 11 8 none = round_channels 11 8 none :=
  ⟨by decide, by decide, round_channels_matches_reference 11 (by decide) 8 (by decide) none⟩

/-- Claim C3: the shortcut flag of a block is exactly `stride == 1 && in_channel ==
out_channel`; it is a structure field filled once by the constructor and
never re-evaluated, and `forward` returns `x + conv(x)` precisely when that
construction-time condition held, `conv(x)` otherwise.  In particular a
block with `in=24, out=24, stride=1` uses the shortcut, while `in=24,
out=32, stride=1` and every block with `stride=2` do not. -/
theorem shortcut_gating (i o s t : ℤ) {T : Type} [Add T] (ev : Layer → T → T) (x : T) :
    (InvertedResidual.build i o s t).use_shortcut = (s == 1 && i == o)
    ∧ (InvertedResidual.build i o s t).forward ev x =
        (if s == 1 && i == o then x + evalLayers ev (InvertedResidual.build i o s t).conv x
         else evalLayers ev (InvertedResidual.build i o s t).conv x)
    ∧ (InvertedResidual.build 24 24 1 t).use_shortcut = true
    ∧ (InvertedResidual.build 24 32 1 t).use_shortcut = false
    ∧ (∀ i' o' : ℤ, (InvertedResidual.build i' o' 2 t).use_shortcut = false) :=
  ⟨rfl, rfl, rfl, rfl, fun _ _ => rfl⟩

/-- Claim C6: the block pipeline uses `hidden_channel = in_channel * expand_ratio`
throughout; the 1×1 expansion `ConvBNReLU` opens the pipeline precisely when
`expand_ratio ≠ 1`; and the pipeline always ends with the projection — a 1×1
convolution without bias (`hidden → out`) followed by batch normalization
only, with no nonlinearity after it. -/
theorem inverted_residual_pipeline (i o s t : ℤ) :
    ((InvertedResidual.build i o s t).conv.length = if t = 1 then 5 else 8)
    ∧ ((∃ rest, (InvertedResidual.build i o s t).conv = ConvBNReLU i (i * t) 1 1 1 ++ rest) ↔ t ≠ 1)
    ∧ ((InvertedResidual.build i o s t).conv.drop ((InvertedResidual.build i o s t).conv.length - 2)
        = [Layer.conv2d (i * t) o 1 1 0 1 false, Layer.batchNorm2d o]) := by
  by_cases ht : t = 1
  · subst ht
    refine ⟨rfl, ?_, rfl⟩
    simp only [ne_eq, not_true_eq_false, iff_false, not_exists]
    intro rest hr
    simp [InvertedResidual.build, ConvBNReLU] at hr
  · have hb : (t != 1) = true := by simp [bne_iff_ne, ht]
    have hconv : (InvertedResidual.build i o s t).conv =
        ConvBNReLU i (i * t) 1 1 1 ++
        (ConvBNReLU (i * t) (i * t) 3 s (i * t) ++
         [Layer.conv2d (i * t) o 1 1 0 1 false, Layer.batchNorm2d o]) := by
      simp [InvertedResidual.build, hb]
    refine ⟨?_, ?_, ?_⟩
    · rw [if_neg ht, hconv]; rfl
    · simp only [ne_eq, ht, not_false_iff, iff_true]
      exact ⟨_, hconv⟩
    · rw [hconv]; rfl

theorem bne_six_one : ((6 : ℤ) != 1) = true := rfl

theorem bne_one_one : ((1 : ℤ) != 1) = false := rfl

/-- Claim C4: for every `num_classes`, width multiplier and rounding granularity,
channel propagation through the assembled feature sequence is strictly
left-to-right — the first block consumes the stem's output channels and each
block consumes the previous block's output channels — and within each stage
of repeat count `n` exactly block 0 carries the stage stride `s`, the
remaining `n - 1` blocks carrying stride 1. -/
theorem channel_chain_and_stride_placement (nc : ℤ) (alpha : ℚ) (rn : ℤ) :
    chainedFrom (make_divisible (32 * alpha) rn none)
      (blockParams (MobileNetV2.build nc alpha rn).features)
    ∧ (blockParams (MobileNetV2.build nc alpha rn).features).map (fun p => p.2.2.1)
      = (inverted_residual_setting.map fun q => q.2.2.2 :: List.replicate (q.2.2.1 - 1) 1).flatten := by
  rw [build_features]
  constructor
  · simp [blockParams, chainedFrom]
  · rfl

/-- Claim C5: with the default stage table and `width_multiplier = 1.0`, the
feature sequence holds exactly 17 inverted-residual blocks plus one stem and
one head `ConvBNReLU`, stem output 32, head output 1280, and each stage's
first block consumes the previous stage's rounded output channels (the full
resolved block-parameter list is given explicitly). -/
theorem default_network_shape :
    (blockParams (MobileNetV2.build 1000 1 8).features).length = 17
    ∧ (MobileNetV2.build 1000 1 8).features.length = 19
    ∧ (MobileNetV2.build 1000 1 8).features.head? = some (Feature.convbnrelu 3 32 3 2 1)
    ∧ (MobileNetV2.build 1000 1 8).features.getLast? = some (Feature.convbnrelu 320 1280 1 1 1)
    ∧ blockParams (MobileNetV2.build 1000 1 8).features =
      [(32, 16, 1, 1),
       (16, 24, 2, 6), (24, 24, 1, 6),
       (24, 32, 2, 6), (32, 32, 1, 6), (32, 32, 1, 6),
       (32, 64, 2, 6), (64, 64, 1, 6), (64, 64, 1, 6), (64, 64, 1, 6),
       (64, 96, 1, 6), (96, 96, 1, 6), (96, 96, 1, 6),
       (96, 160, 2, 6), (160, 160, 1, 6), (160, 160, 1, 6),
       (160, 320, 1, 6)] := by
  rw [build_features]
  norm_num [md32, md16, md24, md64, md96, md160, md320, md1280]
  exact ⟨rfl, rfl⟩

/-- Claim C9: the constructor validates no configuration range — for every
`num_classes` and width multiplier, non-positive values included,
construction completes and yields the fully assembled structure: 19 feature
units, the pooling stage, and the dropout-plus-linear classifier. -/
theorem construction_total (nc : ℤ) (alpha : ℚ) (rn : ℤ) :
    (MobileNetV2.build nc alpha rn).features.length = 19
    ∧ (MobileNetV2.build nc alpha rn).classifier =
      [Layer.dropout (1/5), Layer.linear (make_divisible (1280 * alpha) rn none) nc true]
    ∧ (MobileNetV2.build nc alpha rn).avgpool = Layer.adaptiveAvgPool2d := by
  refine ⟨?_, build_classifier nc alpha rn, build_avgpool nc alpha rn⟩
  rw [build_features]
  rfl

/-- Claim C7: the initialization pass writes, on every module of the constructed
network, exactly the prescribed constants — convolution bias 0 where a bias
is present, normalization scale 1 and shift 0, linear bias 0 — and it visits
every module exactly once, in order; the classifier's linear map is among
the visited modules. -/
theorem initialization_pass_effects (nc : ℤ) (alpha : ℚ) (rn : ℤ) :
    ((MobileNetV2.build nc alpha rn).modules.all initOK = true)
    ∧ (initPass (MobileNetV2.build nc alpha rn).modules).map Prod.fst
        = (MobileNetV2.build nc alpha rn).modules
    ∧ (initPass (MobileNetV2.build nc alpha rn).modules).length
        = (MobileNetV2.build nc alpha rn).modules.length
    ∧ Layer.linear (make_divisible (1280 * alpha) rn none) nc true
        ∈ (MobileNetV2.build nc alpha rn).modules := by
  refine ⟨?_, initPass_fst _, ?_, ?_⟩
  · simp [List.all_eq_true, initOK_all]
  · simp [initPass]
  · simp [MobileNetV2.modules, build_classifier]

/-- Claim C10, counterexample: it is not true that the classifier's linear map is
the only module of the default network carrying a bias parameter — the stem's
batch-normalization layer (32 features) carries one (its shift, the `m.bias`
the initialization loop writes at line 120) and is not a linear map. -/
theorem bias_not_only_linear :
    ¬ (∀ m ∈ (MobileNetV2.build 1000 1 8).modules, m.hasBiasParam = true → m.isLinear = true) := by
  intro hclaim
  have hmem : Layer.batchNorm2d 32 ∈ (MobileNetV2.build 1000 1 8).modules := by
    simp [MobileNetV2.modules, build_features, Feature.layers, ConvBNReLU,
      InvertedResidual.build, md32]
  exact absurd (hclaim _ hmem rfl) (by decide)

/-- Claim C10, amended: every convolution of the network — stem, expansion,
depthwise, projection, head — is created with `bias=False`, so the
initialization branch zeroing convolution biases is never exercised; and
apart from the normalization layers (whose shift is a bias parameter), the
classifier's linear map is the only module carrying a bias parameter. -/
theorem conv_bias_disabled_everywhere (nc : ℤ) (alpha : ℚ) (rn : ℤ) :
    ((MobileNetV2.build nc alpha rn).modules.all convBiasDisabled = true)
    ∧ ((MobileNetV2.build nc alpha rn).modules.all convBiasBranchUnused = true)
    ∧ ((MobileNetV2.build nc alpha rn).modules.all biasOnlyInLinearOrNorm = true) := by
  refine ⟨?_, ?_, ?_⟩ <;>
  · simp only [MobileNetV2.modules, build_features, build_classifier, build_avgpool]
    simp [Feature.layers, InvertedResidual.build, ConvBNReLU, convBiasDisabled,
      convBiasBranchUnused, biasOnlyInLinearOrNorm, Layer.hasBiasParam, Layer.isLinear,
      Layer.isBatchNorm, initAssignments, bne_six_one, bne_one_one]

/-- Claim C8: over the width multipliers 0.5, 1.0, 1.4 (embedded exactly as the
rationals 1/2, 1, 7/5) with granularity 8, the rounded stem channel count is
non-decreasing in the multiplier and always a multiple of 8. -/
theorem stem_width_monotone :
    make_divisible (32 * (1/2)) 8 none ≤ make_divisible (32 * 1) 8 none
    ∧ make_divisible (32 * 1) 8 none ≤ make_divisible (32 * (7/5)) 8 none
    ∧ 8 ∣ make_divisible (32 * (1/2)) 8 none
    ∧ 8 ∣ make_divisible (32 * 1) 8 none
    ∧ 8 ∣ make_divisible (32 * (7/5)) 8 none := by
  have e1 : make_divisible (32 * (1/2 : ℚ)) 8 none = 16 := by
    norm_num [make_divisible, pyInt, Int.fdiv_eq_ediv]
  have e2 : make_divisible (32 * (1 : ℚ)) 8 none = 32 := by
    norm_num [make_divisible, pyInt, Int.fdiv_eq_ediv]
  have e3 : make_divisible (32 * (7/5 : ℚ)) 8 none = 48 := by
    norm_num [make_divisible, pyInt, Int.fdiv_eq_ediv]
  rw [e1, e2, e3]
  norm_num
